import Mathlib

/-!
Shallow embedding of the NutriCare backend (src/backend/app.py,
src/backend/app_old.py, src/backend/app_new.py,
src/backend/nutrition_database.py).

Reference data (nutrition tables, physical properties, glycemic index) is
external JSON in the running system; here each table is an explicit
association-list parameter, as the code treats them as read-only key-value
lookups.  Python floats are modelled by rationals; Python `round(x, n)`
(banker's rounding) by `pyRound`.
-/

/-- Python's `round` to an integer: round half to even (banker's rounding). -/
def pyRound (q : ℚ) : ℤ :=
  if q - ⌊q⌋ < 1/2 then ⌊q⌋
  else if 1/2 < q - ⌊q⌋ then ⌊q⌋ + 1
  else if ⌊q⌋ % 2 = 0 then ⌊q⌋ else ⌊q⌋ + 1

/-- Python `round(x, 1)`. -/
def round1 (q : ℚ) : ℚ := (pyRound (q * 10) : ℚ) / 10

/-- Python `round(x, 2)`. -/
def round2 (q : ℚ) : ℚ := (pyRound (q * 100) : ℚ) / 100

/-- Python `str.lower()` on the character list (ASCII, as all labels and food
names in this repository are ASCII). -/
def lowerStr (s : String) : String := ⟨s.data.map Char.toLower⟩

/-- Python `str.strip()`: drop leading and trailing whitespace. -/
def trimStr (s : String) : String :=
  ⟨((s.data.dropWhile Char.isWhitespace).reverse.dropWhile Char.isWhitespace).reverse⟩

/-- app.py line 323: a stripped class name is kept when
`class_name and class_name.lower() not in ["background", "none"]`. -/
def acceptedName (t : String) : Bool :=
  !(t == "") && !(lowerStr t == "background") && !(lowerStr t == "none")

/-- `np.unique(mask_array)` (app.py line 313): the distinct pixel values that
occur in the mask, in ascending order.  The mask is the flattened pixel grid,
so `mask.length` is `total_pixels`. -/
def npUnique (mask : List Nat) : List Nat :=
  (List.range (mask.foldr max 0 + 1)).filter (fun v => mask.contains v)

/-- app.py lines 320-326: look up `str(class_id)` in the class map, strip the
label, and accept it unless it is reserved.  Returns the stripped label of an
accepted class id, `none` otherwise. -/
def acceptedLabel (cm : List (Nat × String)) (id : Nat) : Option String :=
  match cm.lookup id with
  | none => none
  | some s => if acceptedName (trimStr s) then some (trimStr s) else none

/-- One value of the `class_areas` dict (app.py lines 333-339). -/
structure AreaEntry where
  pixels : Nat
  percentage : ℚ
  class_id : Nat
deriving DecidableEq

/-- Python dict assignment `class_areas[class_name] = ...`: replace the entry
when the key exists, append otherwise. -/
def setEntry (l : List (String × AreaEntry)) (k : String) (v : AreaEntry) :
    List (String × AreaEntry) :=
  if l.any (fun p => p.1 == k) then
    l.map (fun p => if p.1 == k then (k, v) else p)
  else l ++ [(k, v)]

/-- One iteration of the loop at app.py lines 319-348 (identical loop at lines
593-622 of `direct_predict`).  The accumulator is
(`detected_classes`, `class_areas`, `total_food_area`). -/
def maskAccum (mask : List Nat) (totalPixels : Nat) (cm : List (Nat × String))
    (acc : List String × List (String × AreaEntry) × Nat) (id : Nat) :
    List String × List (String × AreaEntry) × Nat :=
  match acceptedLabel cm id with
  | none => acc
  | some name =>
    let px := mask.count id
    let pct := round2 ((px : ℚ) / (totalPixels : ℚ) * 100)
    (if name ∈ acc.1 then acc.1 else acc.1 ++ [name],
     setEntry acc.2.1 name ⟨px, pct, id⟩,
     acc.2.2 + px)

/-- The whole mask-analysis loop of app.py lines 313-348 on a decoded mask:
iterate over the distinct class ids present, producing
(`detected_classes`, `class_areas`, `total_food_area`). -/
def maskAnalysis (mask : List Nat) (cm : List (Nat × String)) :
    List String × List (String × AreaEntry) × Nat :=
  (npUnique mask).foldl (maskAccum mask mask.length cm) ([], [], 0)

/-- app.py lines 367-371: the degraded-mode list of all non-reserved labels of
the class map (`cls.strip().lower() not in ["background", "none", ""]`). -/
def fallbackClasses (cm : List (Nat × String)) : List String :=
  cm.filterMap (fun p =>
    if !(lowerStr (trimStr p.2) == "background") && !(lowerStr (trimStr p.2) == "none")
        && !(lowerStr (trimStr p.2) == "") then some (trimStr p.2) else none)

/-- The fields of the success dict built at app.py lines 378-394. -/
structure PredResult where
  detected_classes : List String
  total_classes : Nat
  class_areas : List (String × AreaEntry)
  total_food_area_pixels : Nat
  total_food_area_percentage : ℚ
deriving DecidableEq

/-- Outcome of `process_prediction_result`: either the success dict, or the
except-branch dict of app.py lines 396-403 (which carries
`detected_classes = []` and `total_classes = 0`). -/
inductive PredOutcome where
  | ok : PredResult → PredOutcome
  | failed : PredOutcome
deriving DecidableEq

/-- app.py `process_prediction_result` (lines 261-403) as a function of the
decoded-mask option and the class map.  `mask = none` covers both an absent
`segmentation_mask` and one whose base64/image decode raises (the inner
`except` at line 361 swallows the error and leaves all accumulators empty).
In both of those cases, and when the class map is empty, the local variable
`total_food_percentage` (assigned only at line 351, inside the mask branch's
`try`) is unbound when the return dict at line 384 reads it, so the function
falls into its outer `except` and returns the error dict: `PredOutcome.failed`.
Only when the mask decodes and the class map is non-empty does line 351 run
and the success dict get built, with the degraded fallback of lines 365-371
replacing an empty `detected_classes`. -/
def processPredictionResult (mask : Option (List Nat)) (cm : List (Nat × String)) :
    PredOutcome :=
  match mask with
  | none => PredOutcome.failed
  | some m =>
    if cm = [] then PredOutcome.failed
    else
      let r := maskAnalysis m cm
      let det := if r.1 = [] then fallbackClasses cm else r.1
      let pct : ℚ := if 0 < m.length then (r.2.2 : ℚ) / (m.length : ℚ) * 100 else 0
      PredOutcome.ok ⟨det, det.length, r.2.1, r.2.2, round2 pct⟩

/-- app_new.py `process_prediction_result` (lines 185-251), detected-classes
part: same accept test and fallback as app.py, but its return dict reads no
unbound variable, so the degraded mode really is returned. -/
def appNewDetected (mask : Option (List Nat)) (cm : List (Nat × String)) :
    List String :=
  let det := match mask with
    | none => []
    | some m =>
      if cm = [] then []
      else (npUnique m).foldl (fun acc id =>
        match acceptedLabel cm id with
        | none => acc
        | some name => if name ∈ acc then acc else acc ++ [name]) []
  if det = [] ∧ cm ≠ [] then fallbackClasses cm else det

/-- app_old.py lines 161-165: the old accept test — the label of `str(id)` is
kept unchanged whenever it is not the exact string `"background"` (no strip,
no lowercasing, `"none"` and `""` are accepted). -/
def oldAccept (cm : List (Nat × String)) (id : Nat) : Option String :=
  match cm.lookup id with
  | none => none
  | some s => if s ≠ "background" then some s else none

/-- The three mask situations app_old.py's `extract_detected_classes`
distinguishes.  An absent (falsy) mask skips the mask branch and can reach
the fallback at line 169; a mask that fails to decode raises out of the
decode at lines 149-152 into the function-level `except` at lines 173-175,
which returns `[]` without ever reaching the fallback; a decoded mask is a
pixel grid. -/
inductive OldMaskInput where
  | absent : OldMaskInput
  | undecodable : OldMaskInput
  | decoded : List Nat → OldMaskInput
deriving DecidableEq

/-- app_old.py `extract_detected_classes` (lines 134-175).  The fallback
(line 169) keeps every label other than the exact string `"background"` and
runs only when no exception occurred and the mask branch detected nothing
(mask absent, or decoded with no accepted id); a decode failure returns `[]`
through the function-level `except`. -/
def extract_detected_classes (mask : OldMaskInput) (cm : List (Nat × String)) :
    List String :=
  match mask with
  | OldMaskInput.undecodable => []
  | OldMaskInput.absent =>
    let det : List String := []
    if det = [] ∧ cm ≠ [] then
      (cm.map (fun p => p.2)).filter (fun s => !(s == "background"))
    else det
  | OldMaskInput.decoded m =>
    let det :=
      if cm = [] then []
      else (npUnique m).foldl (fun acc id =>
        match oldAccept cm id with
        | none => acc
        | some name => if name ∈ acc then acc else acc ++ [name]) []
    if det = [] ∧ cm ≠ [] then
      (cm.map (fun p => p.2)).filter (fun s => !(s == "background"))
    else det

/-- `nutrition_per_100g` record of data/nutrition_database.json as read by
app.py lines 1241-1251 (keys `calories`, `protein`, `carbs`, `fat`, `fiber`). -/
structure NutritionPer100g where
  calories : ℚ
  protein : ℚ
  carbs : ℚ
  fat : ℚ
  fiber : ℚ
deriving DecidableEq

/-- The scaled dict returned by app.py `get_nutrition_for_weight`. -/
structure ScaledNutrition where
  calories : ℚ
  protein : ℚ
  carbohydrates : ℚ
  fat : ℚ
  fiber : ℚ
deriving DecidableEq

/-- app.py `get_carbohydrates_for_weight` (lines 1222-1231): 0 for a food with
no nutrition entry, else `carbs * weight/100` (no rounding). -/
def get_carbohydrates_for_weight (nut : List (String × NutritionPer100g))
    (name : String) (w : ℚ) : ℚ :=
  match nut.lookup name with
  | none => 0
  | some n => n.carbs * (w / 100)

/-- app.py `get_nutrition_for_weight` (lines 1234-1251): `none` models the
empty dict returned for a food with no nutrition entry; otherwise every
per-100g field is multiplied by `weight/100` and rounded to 1 decimal. -/
def get_nutrition_for_weight (nut : List (String × NutritionPer100g))
    (name : String) (w : ℚ) : Option ScaledNutrition :=
  match nut.lookup name with
  | none => none
  | some n => some
      ⟨round1 (n.calories * (w / 100)),
       round1 (n.protein * (w / 100)),
       round1 (n.carbs * (w / 100)),
       round1 (n.fat * (w / 100)),
       round1 (n.fiber * (w / 100))⟩

/-- One record of data/glycemic_index.json as read by `diabetes_analysis`. -/
structure GIRecord where
  gi_value : ℚ
  gi_category : String
deriving DecidableEq

/-- One element of the `high_risk_foods` list of app.py lines 1026-1033
(the formatted `reason` string is presentation only and is not modelled). -/
structure HighRiskFood where
  name : String
  gi : ℚ
  gl : ℚ
deriving DecidableEq

/-- The `analysis` dict of app.py lines 1068-1075 (the fixed recommendation
strings and the alternatives table join are presentation data, untouched by
the claims, and are not carried here). -/
structure DiabetesAnalysis where
  risk_level : String
  average_gi : ℚ
  total_glycemic_load : ℚ
  high_risk_foods : List HighRiskFood
deriving DecidableEq

/-- app.py lines 1040-1056: the risk-level classification of
(`avg_gi`, `avg_gl`), first match wins. -/
def riskLevel (avg_gi avg_gl : ℚ) : String :=
  if 70 ≤ avg_gi ∨ 20 ≤ avg_gl then "high"
  else if 56 ≤ avg_gi ∨ 11 ≤ avg_gl then "medium"
  else "low"

/-- One iteration of the loop at app.py lines 1008-1033.  A food is looked up
in the glycemic table by its lowercased name; on a miss the accumulators
(`total_gi_score`, `total_gl_score`, `high_risk_foods`) are untouched. -/
def giStep (gi : List (String × GIRecord)) (nut : List (String × NutritionPer100g))
    (acc : ℚ × ℚ × List HighRiskFood) (food : String × ℚ) :
    ℚ × ℚ × List HighRiskFood :=
  let name := lowerStr food.1
  match gi.lookup name with
  | none => acc
  | some r =>
    let carbs := get_carbohydrates_for_weight nut name food.2
    let gl := r.gi_value * carbs / 100
    (acc.1 + r.gi_value,
     acc.2.1 + gl,
     if r.gi_category = "high" ∨ 20 < gl
       then acc.2.2 ++ [⟨name, r.gi_value, round1 gl⟩] else acc.2.2)

/-- app.py `diabetes_analysis` (lines 989-1077) on a list of
(name, weight) detected foods.  `food_count = len(detected_foods)` (line 1006):
the averaging denominator counts every detected food, known GI or not. -/
def diabetes_analysis (gi : List (String × GIRecord))
    (nut : List (String × NutritionPer100g)) (foods : List (String × ℚ)) :
    DiabetesAnalysis :=
  let acc := foods.foldl (giStep gi nut) (0, 0, [])
  let avg_gi := if 0 < foods.length then round1 (acc.1 / (foods.length : ℚ)) else 0
  let avg_gl := round1 acc.2.1
  ⟨riskLevel avg_gi avg_gl, avg_gi, avg_gl, acc.2.2⟩

/-- The hard-coded `food_densities` dict of app.py lines 423-440. -/
def food_densities : List (String × ℚ) :=
  [("bhat", 8/10), ("daal", 12/10), ("masu", 15/10), ("momo", 13/10),
   ("roti", 6/10), ("chowmein", 9/10), ("samosa", 11/10), ("pakoda", 1),
   ("gundruk", 5/10), ("dhido", 14/10), ("kheer", 11/10), ("selroti", 7/10),
   ("yomari", 12/10), ("chana masala", 11/10), ("chiya", 1), ("burger", 12/10)]

/-- One value of the `weight_estimates` dict of app.py lines 466-499. -/
structure AreaWeightEstimate where
  estimated_weight_grams : ℚ
  estimated_weight_oz : ℚ
  area_cm2 : ℚ
  density_used : ℚ
  confidence : String
deriving DecidableEq

/-- app.py `estimate_weight_from_area` (lines 406-515), per-food body: the
frame is assumed to cover 400 cm2, `pixels_per_cm2 = total_pixels/400`, and
weight is `area * density * 2` with density from `food_densities` and
confidence `"estimated"` for a known food, or density 1.0 and confidence
`"low"` for an unknown one. -/
def estimate_weight_from_area (totalPixels : ℚ) (name : String) (pixels : ℚ) :
    AreaWeightEstimate :=
  let pixels_per_cm2 := totalPixels / 400
  let area := pixels / pixels_per_cm2
  match food_densities.lookup name with
  | some d =>
    ⟨round1 (area * d * 2), round2 (area * d * 2 * (35274/1000000)),
     round2 area, d, "estimated"⟩
  | none =>
    ⟨round1 (area * 1 * 2), round2 (area * 1 * 2 * (35274/1000000)),
     round2 area, 1, "low"⟩

/-- One record of data/physical_properties.json as read by app.py
lines 1150-1169 (keys `shape`, `thickness_cm`, `density`). -/
structure PhysProps where
  shape : String
  thickness_cm : ℚ
  density : ℚ
deriving DecidableEq

/-- app.py line 1158's `3.14159`. -/
def piApprox : ℚ := 314159 / 100000

/-- The shape-dependent volume of app.py lines 1157-1166.  The cylinder branch
computes `radius = (area/3.14159) ** 0.5` and then `3.14159 * radius * radius
* thickness`; since squaring undoes the square root exactly, that value is
`3.14159 * (area/3.14159) * thickness`, which is how it is written here.  The
sphere branch keeps a real cube of the square root, which has no exact
rational value, so it is left unmodelled (`none`); no claim concerns it.  Any
other shape string falls into the rectangular/irregular `else`, with the 0.8
reduction factor applied exactly when the shape is `"irregular"`. -/
def enhancedVolume (shape : String) (thickness area : ℚ) : Option ℚ :=
  if shape = "cylinder" then some (piApprox * (area / piApprox) * thickness)
  else if shape = "sphere" then none
  else some (if shape = "irregular" then area * thickness * (8/10)
             else area * thickness)

/-- One element of the `results` list of app.py lines 1178-1208: either the
known-food entry (lines 1178-1192) or the fallback entry (lines 1194-1208),
which is marked by `method = "fallback_estimation"` plus a note and carries
empty nutrition. -/
inductive WeightResult where
  | known (estimated_weight_grams : ℚ) (volume_cm3 : ℚ) (shape : String)
      (thickness_cm : ℚ) (density : ℚ) (nutrition : Option ScaledNutrition)
  | fallback (estimated_weight_grams : ℚ)
deriving DecidableEq

/-- app.py `enhanced_weight_estimation` (lines 1136-1219), per-food body.
Known food: volume by shape, `estimated_weight = volume * density`, weight
rounded to 1 decimal and volume to 2 in the output, nutrition scaled to the
unrounded weight.  Unknown food: `area * 2.0 * 1.0` with the fallback marker.
`none` only for the unmodelled sphere volume. -/
def enhanced_weight_entry (props : List (String × PhysProps))
    (nut : List (String × NutritionPer100g)) (name : String) (area : ℚ) :
    Option WeightResult :=
  match props.lookup (lowerStr name) with
  | none => some (WeightResult.fallback (round1 (area * 2 * 1)))
  | some p =>
    match enhancedVolume p.shape p.thickness_cm area with
    | none => none
    | some vol =>
      some (WeightResult.known (round1 (vol * p.density)) (round2 vol) p.shape
        p.thickness_cm p.density
        (get_nutrition_for_weight nut (lowerStr name) (vol * p.density)))

/-- One record of data/density_database.json as read by
nutrition_database.py lines 69-71. -/
structure DensityInfo where
  density_g_per_cm3 : ℚ
  avg_thickness_cm : ℚ
  shape_factor : ℚ
deriving DecidableEq

/-- The `calculation_details` keys common to both branches of
nutrition_database.py `estimate_weight`. -/
structure EstimateDetails where
  method : String
  confidence : String
deriving DecidableEq

/-- nutrition_database.py `NutritionDatabase.estimate_weight` (lines 51-87):
a food with no density record gets the fallback `area * 0.5` with method
`"fallback"` and confidence `"low"`; a known food gets
`area * thickness * shape_factor * density` — the `shape_factor` is applied
unconditionally, the records carry no shape. -/
def NutritionDatabase.estimate_weight (density_data : List (String × DensityInfo))
    (name : String) (area : ℚ) : ℚ × EstimateDetails :=
  match density_data.lookup (lowerStr name) with
  | none => (area * (1/2), ⟨"fallback", "low"⟩)
  | some info =>
    (area * info.avg_thickness_cm * info.shape_factor * info.density_g_per_cm3,
     ⟨"density_based", "high"⟩)


/-! ### Rounding lemmas -/

theorem pyRound_close (q : ℚ) : |(pyRound q : ℚ) - q| ≤ 1/2 := by
  have h1 : (⌊q⌋ : ℚ) ≤ q := Int.floor_le q
  have h2 : q < ⌊q⌋ + 1 := Int.lt_floor_add_one q
  unfold pyRound
  split_ifs with ha hb hc
  · rw [abs_le]; constructor <;> linarith
  · rw [abs_le]; push_cast; constructor <;> linarith
  · rw [abs_le]; constructor <;> linarith
  · rw [abs_le]; push_cast; constructor <;> linarith

theorem round1_close (q : ℚ) : |round1 q - q| ≤ 1/20 := by
  have h := pyRound_close (q * 10)
  unfold round1
  have he : (pyRound (q * 10) : ℚ) / 10 - q = ((pyRound (q * 10) : ℚ) - q * 10) / 10 := by
    ring
  rw [he, abs_div]
  have h10 : |(10:ℚ)| = 10 := by norm_num
  rw [h10]
  linarith

/-- Round-tripping one nutrition field: scale by `w/100`, round to 1 decimal,
divide the factor back out; the result is within `5/w` of the original. -/
theorem roundtrip_bound (v w : ℚ) (hw : 0 < w) :
    |round1 (v * (w/100)) / (w/100) - v| ≤ 5 / w := by
  have hf : (0:ℚ) < w/100 := by positivity
  have h := round1_close (v * (w/100))
  have he : round1 (v * (w/100)) / (w/100) - v
      = (round1 (v * (w/100)) - v * (w/100)) / (w/100) := by
    field_simp
    ring
  rw [he, abs_div, abs_of_pos hf, div_le_div_iff₀ hf hw]
  have hmul : |round1 (v * (w/100)) - v * (w/100)| * w ≤ (1/20) * w :=
    mul_le_mul_of_nonneg_right h hw.le
  calc |round1 (v * (w/100)) - v * (w/100)| * w ≤ (1/20) * w := hmul
    _ = 5 * (w/100) * 2 / 2 := by ring
    _ = 5 * (w/100) := by ring

/-! ### Claims C9, C1, C5 -/

/-- Claim C9: nutrition scaling round-trips.  For every food with a nutrition
entry and every weight w > 0, `get_nutrition_for_weight` scales each per-100g
field by `w/100` and rounds to 1 decimal place; dividing each scaled field by
`w/100` recovers the original per-100g value within the rounding tolerance,
namely half of the final decimal step divided by the factor: `(1/20)/(w/100)
= 5/w`. -/
theorem c9_nutrition_roundtrip (nut : List (String × NutritionPer100g))
    (name : String) (n : NutritionPer100g) (w : ℚ)
    (hn : nut.lookup name = some n) (hw : 0 < w) :
    ∃ s, get_nutrition_for_weight nut name w = some s ∧
      |s.calories / (w/100) - n.calories| ≤ 5 / w ∧
      |s.protein / (w/100) - n.protein| ≤ 5 / w ∧
      |s.carbohydrates / (w/100) - n.carbs| ≤ 5 / w ∧
      |s.fat / (w/100) - n.fat| ≤ 5 / w ∧
      |s.fiber / (w/100) - n.fiber| ≤ 5 / w := by
  refine ⟨⟨round1 (n.calories * (w/100)), round1 (n.protein * (w/100)),
    round1 (n.carbs * (w/100)), round1 (n.fat * (w/100)), round1 (n.fiber * (w/100))⟩,
    ?_, roundtrip_bound n.calories w hw, roundtrip_bound n.protein w hw,
    roundtrip_bound n.carbs w hw, roundtrip_bound n.fat w hw,
    roundtrip_bound n.fiber w hw⟩
  simp [get_nutrition_for_weight, hn]

/-- Concrete instance of C9: the food "bhat" with 130 kcal / 3 g protein /
28 g carbs / 1 g fat / 1 g fiber per 100 g, scaled to 150 g. -/
theorem c9_nutrition_roundtrip_witness :
    ∃ s, get_nutrition_for_weight [("bhat", ⟨130, 3, 28, 1, 1⟩)] "bhat" 150 = some s ∧
      |s.calories / ((150:ℚ)/100) - 130| ≤ 5 / 150 ∧
      |s.protein / ((150:ℚ)/100) - 3| ≤ 5 / 150 ∧
      |s.carbohydrates / ((150:ℚ)/100) - 28| ≤ 5 / 150 ∧
      |s.fat / ((150:ℚ)/100) - 1| ≤ 5 / 150 ∧
      |s.fiber / ((150:ℚ)/100) - 1| ≤ 5 / 150 :=
  c9_nutrition_roundtrip [("bhat", ⟨130, 3, 28, 1, 1⟩)] "bhat" ⟨130, 3, 28, 1, 1⟩ 150
    (by decide) (by decide)

/-- Claim C1: meal risk classification is the deterministic function
`riskLevel` of (avg_gi, total_gl), checked in order with first match winning
(and `diabetes_analysis` classifies exactly with it).  `avg_gi ≥ 70` or
`total_gl ≥ 20` gives "high"; otherwise `avg_gi ≥ 56` or `total_gl ≥ 11`
gives "medium"; otherwise "low".  Boundary values 70 and 20 classify as
"high"; one unit below each boundary (69, or 19 with avg_gi below 70) drops
to "medium", and one unit below the medium boundaries (55, or 10 with avg_gi
below 56) drops to "low". -/
theorem c1_risk_classification :
    (∀ g l : ℚ, (70 ≤ g ∨ 20 ≤ l) → riskLevel g l = "high") ∧
    (∀ g l : ℚ, g < 70 → l < 20 → (56 ≤ g ∨ 11 ≤ l) → riskLevel g l = "medium") ∧
    (∀ g l : ℚ, g < 70 → l < 20 → g < 56 → l < 11 → riskLevel g l = "low") ∧
    (∀ l : ℚ, riskLevel 70 l = "high") ∧
    (∀ g : ℚ, riskLevel g 20 = "high") ∧
    (∀ l : ℚ, l < 20 → riskLevel 69 l = "medium") ∧
    (∀ g : ℚ, g < 70 → riskLevel g 19 = "medium") ∧
    (∀ l : ℚ, l < 11 → riskLevel 55 l = "low") ∧
    (∀ g : ℚ, g < 56 → riskLevel g 10 = "low") ∧
    (∀ gi nut foods, (diabetes_analysis gi nut foods).risk_level =
      riskLevel (diabetes_analysis gi nut foods).average_gi
        (diabetes_analysis gi nut foods).total_glycemic_load) := by
  refine ⟨?_, ?_, ?_, ?_, ?_, ?_, ?_, ?_, ?_, ?_⟩
  · intro g l h; simp [riskLevel, if_pos h]
  · intro g l hg hl h
    have hno : ¬ (70 ≤ g ∨ 20 ≤ l) := by push_neg; exact ⟨hg, hl⟩
    simp [riskLevel, if_neg hno, if_pos h]
  · intro g l hg hl hg2 hl2
    have hno : ¬ (70 ≤ g ∨ 20 ≤ l) := by push_neg; exact ⟨hg, hl⟩
    have hno2 : ¬ (56 ≤ g ∨ 11 ≤ l) := by push_neg; exact ⟨hg2, hl2⟩
    simp [riskLevel, if_neg hno, if_neg hno2]
  · intro l; simp [riskLevel]
  · intro g
    have h : (70:ℚ) ≤ g ∨ (20:ℚ) ≤ 20 := Or.inr le_rfl
    simp [riskLevel, if_pos h]
  · intro l hl
    have hno : ¬ ((70:ℚ) ≤ 69 ∨ 20 ≤ l) := by push_neg; exact ⟨by norm_num, hl⟩
    have h2 : (56:ℚ) ≤ 69 ∨ (11:ℚ) ≤ l := Or.inl (by norm_num)
    simp [riskLevel, if_neg hno, if_pos h2]
  · intro g hg
    have hno : ¬ ((70:ℚ) ≤ g ∨ (20:ℚ) ≤ 19) := by push_neg; exact ⟨hg, by norm_num⟩
    have h2 : (56:ℚ) ≤ g ∨ (11:ℚ) ≤ 19 := Or.inr (by norm_num)
    simp [riskLevel, if_neg hno, if_pos h2]
  · intro l hl
    have hno : ¬ ((70:ℚ) ≤ 55 ∨ 20 ≤ l) := by push_neg; exact ⟨by norm_num, by linarith⟩
    have hno2 : ¬ ((56:ℚ) ≤ 55 ∨ 11 ≤ l) := by push_neg; exact ⟨by norm_num, hl⟩
    simp [riskLevel, if_neg hno, if_neg hno2]
  · intro g hg
    have hno : ¬ ((70:ℚ) ≤ g ∨ (20:ℚ) ≤ 10) := by push_neg; exact ⟨by linarith, by norm_num⟩
    have hno2 : ¬ ((56:ℚ) ≤ g ∨ (11:ℚ) ≤ 10) := by push_neg; exact ⟨hg, by norm_num⟩
    simp [riskLevel, if_neg hno, if_neg hno2]
  · intro gi nut foods; rfl

/-- Concrete instances of C1 at the boundaries. -/
theorem c1_risk_classification_witness :
    riskLevel 70 0 = "high" ∧ riskLevel 0 20 = "high" ∧
    riskLevel 69 0 = "medium" ∧ riskLevel 0 19 = "medium" ∧
    riskLevel 55 0 = "low" ∧ riskLevel 0 10 = "low" :=
  ⟨c1_risk_classification.1 70 0 (Or.inl (by norm_num)),
   c1_risk_classification.1 0 20 (Or.inr (by norm_num)),
   c1_risk_classification.2.2.2.2.2.1 0 (by norm_num),
   c1_risk_classification.2.2.2.2.2.2.1 0 (by norm_num),
   c1_risk_classification.2.2.2.2.2.2.2.1 0 (by norm_num),
   c1_risk_classification.2.2.2.2.2.2.2.2.1 0 (by norm_num)⟩

/-- Claim C5: for every food whose physical profile has rectangular shape,
`enhanced_weight_estimation` computes `volume = area_cm2 * thickness_cm` with
no shape factor and `estimated_weight = volume * density` (the 0.8 factor is
applied exactly for the irregular shape); in particular "bhat" with
area 100, rectangular shape, thickness 2 and density 0.8 gives volume 200 and
estimated weight 160.0. -/
theorem c5_rectangular_weight :
    (∀ (props : List (String × PhysProps)) (nut : List (String × NutritionPer100g))
       (name : String) (p : PhysProps) (area : ℚ),
       props.lookup (lowerStr name) = some p → p.shape = "rectangular" →
       enhanced_weight_entry props nut name area =
         some (WeightResult.known (round1 (area * p.thickness_cm * p.density))
           (round2 (area * p.thickness_cm)) "rectangular" p.thickness_cm p.density
           (get_nutrition_for_weight nut (lowerStr name)
             (area * p.thickness_cm * p.density)))) ∧
    (∀ (props : List (String × PhysProps)) (nut : List (String × NutritionPer100g))
       (name : String) (p : PhysProps) (area : ℚ),
       props.lookup (lowerStr name) = some p → p.shape = "irregular" →
       enhanced_weight_entry props nut name area =
         some (WeightResult.known (round1 (area * p.thickness_cm * (8/10) * p.density))
           (round2 (area * p.thickness_cm * (8/10))) "irregular" p.thickness_cm p.density
           (get_nutrition_for_weight nut (lowerStr name)
             (area * p.thickness_cm * (8/10) * p.density)))) ∧
    enhanced_weight_entry [("bhat", ⟨"rectangular", 2, 8/10⟩)] [] "bhat" 100 =
      some (WeightResult.known 160 200 "rectangular" 2 (8/10) none) := by
  refine ⟨?_, ?_, ?_⟩
  · intro props nut name p area hp hsh
    simp [enhanced_weight_entry, hp, enhancedVolume, hsh]
  · intro props nut name p area hp hsh
    simp [enhanced_weight_entry, hp, enhancedVolume, hsh]
  · have h1 : lowerStr "bhat" = "bhat" := by decide
    simp [enhanced_weight_entry, enhancedVolume, List.lookup, h1, get_nutrition_for_weight]
    norm_num [round1, round2, pyRound]

/-- Concrete instance of the universally quantified part of C5. -/
theorem c5_rectangular_weight_witness :
    enhanced_weight_entry [("roti", ⟨"rectangular", 1, 2⟩)] [] "roti" 50 =
      some (WeightResult.known (round1 (50 * (1:ℚ) * 2)) (round2 (50 * (1:ℚ)))
        "rectangular" 1 2 (get_nutrition_for_weight [] (lowerStr "roti") (50 * (1:ℚ) * 2))) :=
  c5_rectangular_weight.1 [("roti", ⟨"rectangular", 1, 2⟩)] [] "roti"
    ⟨"rectangular", 1, 2⟩ 50 (by decide) rfl

/-! ### Claims C6, C2, C7 -/

/-- Claim C6 counterexample: `NutritionDatabase.estimate_weight` (cited by the
claim) handles a food with no physical-profile entry with the fallback
`area * 0.5`, not with the default profile `area * 2.0 * 1.0`: for "xyz" at
100 cm2 it returns 50 g where the claim requires 200 g. -/
theorem c6_unknown_food_counterexample :
    NutritionDatabase.estimate_weight [] "xyz" 100 = (50, ⟨"fallback", "low"⟩) ∧
    (50:ℚ) ≠ 100 * 2 * 1 := by
  constructor
  · have h1 : lowerStr "xyz" = "xyz" := by decide
    simp [NutritionDatabase.estimate_weight, List.lookup, h1]
    norm_num
  · norm_num

/-- Claim C6 amended: for a food name with no physical-profile entry, the two
app.py estimators do use the default profile (density 1.0, thickness 2 cm,
rectangular): `estimate_weight_from_area` returns `area * 1 * 2` flagged with
`confidence = "low"` (known foods get `"estimated"`, a distinct marker), and
`enhanced_weight_estimation` returns `area * 2 * 1` in the structurally
distinct fallback entry; but `NutritionDatabase.estimate_weight` instead
returns `area * 0.5` with method `"fallback"` and confidence `"low"`. -/
theorem c6_unknown_food_amended :
    (∀ (total : ℚ) (name : String) (px : ℚ), food_densities.lookup name = none →
       estimate_weight_from_area total name px =
         ⟨round1 (px / (total/400) * 1 * 2),
          round2 (px / (total/400) * 1 * 2 * (35274/1000000)),
          round2 (px / (total/400)), 1, "low"⟩) ∧
    (∀ (total : ℚ) (name : String) (px d : ℚ), food_densities.lookup name = some d →
       (estimate_weight_from_area total name px).confidence = "estimated") ∧
    (∀ (props : List (String × PhysProps)) (nut : List (String × NutritionPer100g))
       (name : String) (area : ℚ), props.lookup (lowerStr name) = none →
       enhanced_weight_entry props nut name area =
         some (WeightResult.fallback (round1 (area * 2 * 1)))) ∧
    (∀ (dd : List (String × DensityInfo)) (name : String) (area : ℚ),
       dd.lookup (lowerStr name) = none →
       NutritionDatabase.estimate_weight dd name area =
         (area * (1/2), ⟨"fallback", "low"⟩)) ∧
    ("low" : String) ≠ "estimated" := by
  refine ⟨?_, ?_, ?_, ?_, by decide⟩
  · intro total name px h; simp [estimate_weight_from_area, h]
  · intro total name px d h; simp [estimate_weight_from_area, h]
  · intro props nut name area h; simp [enhanced_weight_entry, h]
  · intro dd name area h; simp [NutritionDatabase.estimate_weight, h]

/-- Concrete instance of the amended C6, food "xyz" unknown to every table. -/
theorem c6_unknown_food_amended_witness :
    estimate_weight_from_area 10000 "xyz" 2500 =
      ⟨round1 ((2500:ℚ) / (10000/400) * 1 * 2),
       round2 ((2500:ℚ) / (10000/400) * 1 * 2 * (35274/1000000)),
       round2 ((2500:ℚ) / (10000/400)), 1, "low"⟩ ∧
    enhanced_weight_entry [] [] "xyz" 100 =
      some (WeightResult.fallback (round1 ((100:ℚ) * 2 * 1))) :=
  ⟨c6_unknown_food_amended.1 10000 "xyz" 2500 (by decide),
   c6_unknown_food_amended.2.2.1 [] [] "xyz" 100 rfl⟩

/-- The per-food contribution to `total_gi_score`: the gi value for a food
with a glycemic record, 0 otherwise (observer used to state C2/C7). -/
def giOf (gi : List (String × GIRecord)) (f : String × ℚ) : ℚ :=
  match gi.lookup (lowerStr f.1) with
  | some r => r.gi_value
  | none => 0

theorem giStep_foldl_fst (gi : List (String × GIRecord))
    (nut : List (String × NutritionPer100g)) :
    ∀ (foods : List (String × ℚ)) (a b : ℚ) (c : List HighRiskFood),
    (foods.foldl (giStep gi nut) (a, b, c)).1 = a + (foods.map (giOf gi)).sum := by
  intro foods
  induction foods with
  | nil => intro a b c; simp
  | cons f fs ih =>
    intro a b c
    rw [List.foldl_cons, List.map_cons, List.sum_cons]
    cases hf : gi.lookup (lowerStr f.1) with
    | none =>
      have hstep : giStep gi nut (a, b, c) f = (a, b, c) := by
        simp only [giStep, hf]
      rw [hstep, ih]
      unfold giOf; rw [hf]; ring
    | some r =>
      have hstep : giStep gi nut (a, b, c) f =
          (a + r.gi_value,
           b + r.gi_value * get_carbohydrates_for_weight nut (lowerStr f.1) f.2 / 100,
           if r.gi_category = "high" ∨
               20 < r.gi_value * get_carbohydrates_for_weight nut (lowerStr f.1) f.2 / 100
             then c ++ [⟨lowerStr f.1, r.gi_value,
               round1 (r.gi_value * get_carbohydrates_for_weight nut (lowerStr f.1) f.2 / 100)⟩]
             else c) := by
        simp only [giStep, hf]
      rw [hstep, ih]
      unfold giOf; rw [hf]; ring

/-- Claim C2 counterexample: with glycemic table for "bhat" only
(gi 70) and detected foods [bhat, rara], the engine's `avg_gi` is
`round(70/2, 1) = 35`, not the arithmetic mean 70 over the single food with a
known GI record: the unknown food does enter the denominator. -/
theorem c2_avg_gi_counterexample :
    (diabetes_analysis [("bhat", ⟨70, "high"⟩)] []
      [("bhat", 100), ("rara", 100)]).average_gi = 35 ∧ (35:ℚ) ≠ 70 := by
  constructor
  · have h1 : lowerStr "bhat" = "bhat" := by decide
    have h2 : lowerStr "rara" = "rara" := by decide
    simp [diabetes_analysis, giStep, get_carbohydrates_for_weight, List.lookup, h1, h2]
    norm_num [round1, pyRound]
  · norm_num

/-- Claim C2 amended: the meal-level average GI divides the summed gi values
of the foods with known GI records by the count of ALL detected foods (foods
without a GI record contribute 0 to the numerator but still enter the
denominator); when the detected-food list is empty the average is 0 by the
`food_count > 0` guard, and it is also 0 when no detected food has a GI
record. -/
theorem c2_avg_gi_amended (gi : List (String × GIRecord))
    (nut : List (String × NutritionPer100g)) (foods : List (String × ℚ)) :
    (foods ≠ [] → (diabetes_analysis gi nut foods).average_gi =
       round1 ((foods.map (giOf gi)).sum / (foods.length : ℚ))) ∧
    (foods = [] → (diabetes_analysis gi nut foods).average_gi = 0) ∧
    ((∀ f ∈ foods, gi.lookup (lowerStr f.1) = none) →
       (diabetes_analysis gi nut foods).average_gi = 0) := by
  refine ⟨?_, ?_, ?_⟩
  · intro hne
    have hlen : 0 < foods.length := List.length_pos.mpr hne
    simp only [diabetes_analysis, if_pos hlen]
    rw [giStep_foldl_fst]
    norm_num
  · intro he; subst he; simp [diabetes_analysis]
  · intro hall
    have hsum : (foods.map (giOf gi)).sum = 0 := by
      apply List.sum_eq_zero
      intro x hx
      rcases List.mem_map.mp hx with ⟨f, hf, he⟩
      rw [← he]; unfold giOf; rw [hall f hf]
    rcases Decidable.em (foods = []) with he | hne
    · subst he; simp [diabetes_analysis]
    · have hlen : 0 < foods.length := List.length_pos.mpr hne
      simp only [diabetes_analysis, if_pos hlen]
      rw [giStep_foldl_fst, hsum]
      norm_num [round1, pyRound]

/-- Concrete instance of the amended C2: with one known and one unknown food
the denominator is 2. -/
theorem c2_avg_gi_amended_witness :
    (diabetes_analysis [("bhat", ⟨70, "high"⟩)] []
        [("bhat", 100), ("rara", 100)]).average_gi =
      round1 ((([("bhat", (100:ℚ)), ("rara", 100)].map
        (giOf [("bhat", ⟨70, "high"⟩)])).sum) /
        (([("bhat", (100:ℚ)), ("rara", 100)].length : ℚ))) :=
  (c2_avg_gi_amended [("bhat", ⟨70, "high"⟩)] [] [("bhat", 100), ("rara", 100)]).1
    (by simp)

/-- Claim C7 counterexample: the unknown-food behaviour of the risk engine is
zero-risk dilution, not exclusion as insufficient data.  The nutrition scaler
does return the empty record for "rara" (no exception), but with glycemic
table for "bhat" only (gi 70, category high) and empty nutrition table:
a meal of bhat alone is classified "high", while adding the data-less food
"rara" halves avg_gi to 35 and the classification drops to "low"; moreover
bhat's own glycemic load is computed as 0 because its missing nutrition entry
is treated as zero carbohydrates. -/
theorem c7_insufficient_data_counterexample :
    get_nutrition_for_weight [] "rara" 100 = none ∧
    (diabetes_analysis [("bhat", ⟨70, "high"⟩)] [] [("bhat", 100)]).risk_level = "high" ∧
    (diabetes_analysis [("bhat", ⟨70, "high"⟩)] []
      [("bhat", 100), ("rara", 100)]).risk_level = "low" ∧
    (diabetes_analysis [("bhat", ⟨70, "high"⟩)] []
      [("bhat", 100)]).total_glycemic_load = 0 := by
  have h1 : lowerStr "bhat" = "bhat" := by decide
  have h2 : lowerStr "rara" = "rara" := by decide
  refine ⟨rfl, ?_, ?_, ?_⟩
  · simp [diabetes_analysis, giStep, get_carbohydrates_for_weight, List.lookup, h1]
    norm_num [round1, pyRound, riskLevel]
  · simp [diabetes_analysis, giStep, get_carbohydrates_for_weight, List.lookup, h1, h2]
    norm_num [round1, pyRound, riskLevel]
  · simp [diabetes_analysis, giStep, get_carbohydrates_for_weight, List.lookup, h1]
    norm_num [round1, pyRound]

/-- Claim C7 amended: for a food with no nutrition entry the scaler returns
the empty record and the carbohydrate helper returns 0, with no exception
(both are total functions); but the risk engine does NOT treat missing data
as "insufficient": a food with no glycemic record leaves all accumulators
unchanged yet still counts in the averaging denominator, so appending it
dilutes `avg_gi` (acting as a zero-GI food), and a food with a glycemic
record but no nutrition entry has its glycemic load computed as 0 (missing
carbohydrates read as zero carbs). -/
theorem c7_insufficient_data_amended :
    (∀ (nut : List (String × NutritionPer100g)) (name : String) (w : ℚ),
       nut.lookup name = none →
       get_nutrition_for_weight nut name w = none ∧
       get_carbohydrates_for_weight nut name w = 0) ∧
    (∀ (gi : List (String × GIRecord)) (nut : List (String × NutritionPer100g))
       (acc : ℚ × ℚ × List HighRiskFood) (f : String × ℚ),
       gi.lookup (lowerStr f.1) = none → giStep gi nut acc f = acc) ∧
    (∀ (gi : List (String × GIRecord)) (nut : List (String × NutritionPer100g))
       (foods : List (String × ℚ)) (f : String × ℚ),
       gi.lookup (lowerStr f.1) = none →
       (diabetes_analysis gi nut (foods ++ [f])).average_gi =
         round1 ((foods.map (giOf gi)).sum / ((foods.length : ℚ) + 1))) ∧
    (∀ (gi : List (String × GIRecord)) (nut : List (String × NutritionPer100g))
       (acc : ℚ × ℚ × List HighRiskFood) (name : String) (wt : ℚ) (r : GIRecord),
       gi.lookup (lowerStr name) = some r → nut.lookup (lowerStr name) = none →
       (giStep gi nut acc (name, wt)).2.1 = acc.2.1) := by
  refine ⟨?_, ?_, ?_, ?_⟩
  · intro nut name w h
    exact ⟨by simp [get_nutrition_for_weight, h], by simp [get_carbohydrates_for_weight, h]⟩
  · intro gi nut acc f h
    simp only [giStep, h]
  · intro gi nut foods f h
    have hlen : 0 < (foods ++ [f]).length := by simp
    simp only [diabetes_analysis, if_pos hlen]
    rw [List.foldl_append]
    have hstep : giStep gi nut (foods.foldl (giStep gi nut) (0, 0, [])) f =
        foods.foldl (giStep gi nut) (0, 0, []) := by
      simp only [giStep, h]
    rw [List.foldl_cons, List.foldl_nil, hstep, giStep_foldl_fst]
    have hcast : (((foods ++ [f]).length : ℕ) : ℚ) = (foods.length : ℚ) + 1 := by
      rw [List.length_append]
      push_cast
      norm_num
    rw [hcast]
    norm_num
  · intro gi nut acc name wt r hg hn
    simp only [giStep, hg, get_carbohydrates_for_weight, hn]
    norm_num

/-- Concrete instance of the amended C7: appending data-less "rara" to a
bhat meal keeps the GI sum at 70 but makes the denominator 2. -/
theorem c7_insufficient_data_amended_witness :
    get_nutrition_for_weight [] "rara" 150 = none ∧
    get_carbohydrates_for_weight [] "rara" 150 = 0 ∧
    (diabetes_analysis [("bhat", ⟨70, "high"⟩)] []
        ([("bhat", (100:ℚ))] ++ [("rara", 100)])).average_gi =
      round1 ((([("bhat", (100:ℚ))].map (giOf [("bhat", ⟨70, "high"⟩)])).sum) /
        (([("bhat", (100:ℚ))].length : ℚ) + 1)) :=
  ⟨(c7_insufficient_data_amended.1 [] "rara" 150 rfl).1,
   (c7_insufficient_data_amended.1 [] "rara" 150 rfl).2,
   c7_insufficient_data_amended.2.2.1 [("bhat", ⟨70, "high"⟩)] []
     [("bhat", (100:ℚ))] ("rara", 100) (by decide)⟩

/-! ### Claim C4 -/

/-- Claim C4, evaluated at the failing input.  With the segmentation mask
absent (or undecodable) and non-empty class map, app.py's
`process_prediction_result` computes the degraded fallback list at lines
365-371 but then reads the never-assigned local `total_food_percentage` at
line 384, raising `UnboundLocalError`, so the outer `except` returns the
error dict whose `detected_classes` is empty: the degraded mode is lost.
app_new.py's routine on the same input really returns the fallback list.
The sibling case that does work in app.py — mask decodes but yields zero
accepted classes — is shown for contrast: there the degraded result with all
non-reserved labels and zero areas is returned. -/
theorem c4_fallback_unbound_local :
    processPredictionResult none [(1, "bhat")] = PredOutcome.failed ∧
    appNewDetected none [(1, "bhat")] = ["bhat"] ∧
    processPredictionResult (some [0]) [(0, "background"), (1, "bhat")] =
      PredOutcome.ok ⟨["bhat"], 1, [], 0, 0⟩ := by
  refine ⟨rfl, by decide, ?_⟩
  have h0 : maskAnalysis [0] [(0, "background"), (1, "bhat")] = ([], [], 0) := by decide
  have h1 : fallbackClasses [(0, "background"), (1, "bhat")] = ["bhat"] := by decide
  simp [processPredictionResult, h0, h1]
  norm_num [round2, pyRound]

/-! ### Claim C10 -/

theorem lookup_mem {β : Type} {cm : List (Nat × β)} {id : Nat} {s : β}
    (h : cm.lookup id = some s) : (id, s) ∈ cm := by
  induction cm with
  | nil => simp [List.lookup] at h
  | cons p rest ih =>
    obtain ⟨k, b⟩ := p
    rw [List.lookup] at h
    by_cases he : id = k
    · subst he
      simp only [beq_self_eq_true] at h
      injection h with h
      subst h
      exact List.mem_cons_self _ _
    · have hb : (id == k) = false := beq_eq_false_iff_ne.mpr he
      rw [hb] at h
      exact List.mem_cons_of_mem _ (ih h)

theorem lowerStr_empty_iff (s : String) : lowerStr s = "" ↔ s = "" := by
  constructor
  · intro h
    have hd : (lowerStr s).data = s.data.map Char.toLower := rfl
    rw [h] at hd
    have hnil : s.data = [] := List.map_eq_nil_iff.mp hd.symm
    cases s
    simp only at hnil
    simp [hnil]
  · intro h; subst h; rfl

/-- The label-hygiene hypothesis under which the old and current extraction
agree: every class-map label is already stripped, non-empty, not a case
variant of "none", and only the exact string "background" lowercases to
"background". -/
def cleanLabels (cm : List (Nat × String)) : Prop :=
  ∀ p ∈ cm, trimStr p.2 = p.2 ∧ p.2 ≠ "" ∧ lowerStr p.2 ≠ "none" ∧
    (lowerStr p.2 = "background" ↔ p.2 = "background")

instance cleanLabelsDecidable (cm : List (Nat × String)) : Decidable (cleanLabels cm) := by
  unfold cleanLabels
  infer_instance

theorem accept_eq_old (cm : List (Nat × String)) (H : cleanLabels cm) :
    ∀ id, acceptedLabel cm id = oldAccept cm id := by
  intro id
  unfold acceptedLabel oldAccept
  cases hl : cm.lookup id with
  | none => rfl
  | some s =>
    obtain ⟨ht0, hne0, hnn0, hbg0⟩ := H (id, s) (lookup_mem hl)
    have ht : trimStr s = s := ht0
    have hne : s ≠ "" := hne0
    have hnn : lowerStr s ≠ "none" := hnn0
    have hbg : lowerStr s = "background" ↔ s = "background" := hbg0
    show (if acceptedName (trimStr s) = true then some (trimStr s) else none) =
      (if s ≠ "background" then some s else none)
    rw [ht]
    by_cases hb : s = "background"
    · subst hb
      have hlow : lowerStr "background" = "background" := by decide
      simp [acceptedName, hlow]
    · have h1 : lowerStr s ≠ "background" := fun h => hb (hbg.mp h)
      have ha : acceptedName s = true := by
        simp only [acceptedName, Bool.and_eq_true, Bool.not_eq_true', beq_eq_false_iff_ne]
        exact ⟨⟨hne, h1⟩, hnn⟩
      simp [ha, hb]

theorem fold_fst_eq_old (mask : List Nat) (total : Nat) (cm : List (Nat × String))
    (Hacc : ∀ id, acceptedLabel cm id = oldAccept cm id) :
    ∀ (ids : List Nat) (det : List String) (areas : List (String × AreaEntry)) (tot : Nat),
    (ids.foldl (maskAccum mask total cm) (det, areas, tot)).1 =
      ids.foldl (fun acc id =>
        match oldAccept cm id with
        | none => acc
        | some name => if name ∈ acc then acc else acc ++ [name]) det := by
  intro ids
  induction ids with
  | nil => intro det areas tot; rfl
  | cons id rest ih =>
    intro det areas tot
    rw [List.foldl_cons, List.foldl_cons]
    cases ho : oldAccept cm id with
    | none =>
      have ha : acceptedLabel cm id = none := (Hacc id).trans ho
      have hstep : maskAccum mask total cm (det, areas, tot) id = (det, areas, tot) := by
        simp only [maskAccum, ha]
      rw [hstep]
      exact ih _ _ _
    | some name =>
      have ha : acceptedLabel cm id = some name := (Hacc id).trans ho
      have hstep : maskAccum mask total cm (det, areas, tot) id =
          (if name ∈ det then det else det ++ [name],
           setEntry areas name ⟨mask.count id,
             round2 ((mask.count id : ℚ) / (total : ℚ) * 100), id⟩,
           tot + mask.count id) := by
        simp only [maskAccum, ha]
      rw [hstep]
      exact ih _ _ _

theorem fallback_eq_old (cm : List (Nat × String)) (H : cleanLabels cm) :
    fallbackClasses cm = (cm.map (fun p => p.2)).filter (fun s => !(s == "background")) := by
  induction cm with
  | nil => rfl
  | cons p rest ih =>
    obtain ⟨ht, hne, hnn, hbg⟩ := H p (List.mem_cons_self p rest)
    have hrest : cleanLabels rest := fun q hq => H q (List.mem_cons_of_mem p hq)
    have ihr := ih hrest
    unfold fallbackClasses at ihr ⊢
    rw [List.filterMap_cons, List.map_cons, List.filter_cons, ht]
    by_cases hb : p.2 = "background"
    · have hlow : lowerStr p.2 = "background" := hbg.mpr hb
      have hc1 : (lowerStr p.2 == "background") = true := beq_iff_eq.mpr hlow
      have hc2 : (p.2 == "background") = true := beq_iff_eq.mpr hb
      rw [hc1, hc2]
      simpa using ihr
    · have h1 : (lowerStr p.2 == "background") = false :=
        beq_eq_false_iff_ne.mpr (fun h => hb (hbg.mp h))
      have h2 : (lowerStr p.2 == "none") = false := beq_eq_false_iff_ne.mpr hnn
      have h3 : (lowerStr p.2 == "") = false :=
        beq_eq_false_iff_ne.mpr (fun h => hne ((lowerStr_empty_iff p.2).mp h))
      have h4 : (p.2 == "background") = false := beq_eq_false_iff_ne.mpr hb
      rw [h1, h2, h3, h4]
      simpa [ht] using ihr

/-- Claim C10 counterexample: on the class map with the single label "none"
and a mask containing its id, app_old.py's `extract_detected_classes` returns
["none"] (it only excludes the exact string "background"), while app.py's
`process_prediction_result` rejects the reserved label and, the fallback
also rejecting it, returns an empty detected-class list. -/
theorem c10_detected_counterexample :
    extract_detected_classes (OldMaskInput.decoded [1]) [(1, "none")] = ["none"] ∧
    processPredictionResult (some [1]) [(1, "none")] =
      PredOutcome.ok ⟨[], 0, [], 0, 0⟩ ∧
    (["none"] : List String) ≠ [] := by
  refine ⟨by decide, ?_, by decide⟩
  have h0 : maskAnalysis [1] [(1, "none")] = ([], [], 0) := by decide
  have h1 : fallbackClasses [(1, "none")] = [] := by decide
  simp [processPredictionResult, h0, h1]
  norm_num [round2, pyRound]

/-- Claim C10 amended: the old and the current detected-class extraction
agree on every decodable mask and non-empty class map whose labels are clean
— already whitespace-stripped, non-empty, not a case variant of "none", and
lowercasing to "background" only for the exact string "background".  In
general they differ: the old routine reserves only the exact string
"background" (no strip, no lowercase), so it accepts labels such as "none"
that the current routine rejects.  On an absent mask the old routine returns
its fallback list (equal, under clean labels, to the current fallback) while
the current app.py routine returns the error dict (see C4); on a mask that
fails to decode the old routine's function-level except returns the empty
list — its fallback is never reached — while the current app.py routine
again returns the error dict. -/
theorem c10_detected_amended (m : List Nat) (cm : List (Nat × String))
    (hcm : cm ≠ []) (H : cleanLabels cm) :
    (∃ r, processPredictionResult (some m) cm = PredOutcome.ok r ∧
      r.detected_classes = extract_detected_classes (OldMaskInput.decoded m) cm) ∧
    extract_detected_classes OldMaskInput.absent cm = fallbackClasses cm ∧
    extract_detected_classes OldMaskInput.undecodable cm = [] ∧
    processPredictionResult none cm = PredOutcome.failed := by
  have Hacc := accept_eq_old cm H
  have hfst : (maskAnalysis m cm).1 =
      (npUnique m).foldl (fun acc id =>
        match oldAccept cm id with
        | none => acc
        | some name => if name ∈ acc then acc else acc ++ [name]) [] := by
    unfold maskAnalysis
    exact fold_fst_eq_old m m.length cm Hacc (npUnique m) [] [] 0
  have hfb := fallback_eq_old cm H
  refine ⟨?_, ?_, rfl, rfl⟩
  · have hold : extract_detected_classes (OldMaskInput.decoded m) cm =
        (if (maskAnalysis m cm).1 = [] then fallbackClasses cm else (maskAnalysis m cm).1) := by
      simp only [extract_detected_classes]
      rw [if_neg hcm, ← hfst, hfb]
      by_cases hd : (maskAnalysis m cm).1 = []
      · rw [if_pos ⟨hd, hcm⟩, if_pos hd]
      · rw [if_neg (fun hc => hd hc.1), if_neg hd]
    refine ⟨⟨if (maskAnalysis m cm).1 = [] then fallbackClasses cm else (maskAnalysis m cm).1,
      (if (maskAnalysis m cm).1 = [] then fallbackClasses cm else (maskAnalysis m cm).1).length,
      (maskAnalysis m cm).2.1, (maskAnalysis m cm).2.2,
      round2 (if 0 < m.length then ((maskAnalysis m cm).2.2 : ℚ) / (m.length : ℚ) * 100 else 0)⟩,
      ?_, ?_⟩
    · simp only [processPredictionResult]
      rw [if_neg hcm]
    · rw [hold]
  · simp only [extract_detected_classes]
    rw [if_pos ⟨trivial, hcm⟩, ← hfb]

/-- Concrete instance of the amended C10: a clean two-label class map with
"background" and "bhat". -/
theorem c10_detected_amended_witness :
    (∃ r, processPredictionResult (some [0, 1, 1]) [(0, "background"), (1, "bhat")] =
        PredOutcome.ok r ∧
      r.detected_classes =
        extract_detected_classes (OldMaskInput.decoded [0, 1, 1])
          [(0, "background"), (1, "bhat")]) ∧
    extract_detected_classes OldMaskInput.absent [(0, "background"), (1, "bhat")] =
      fallbackClasses [(0, "background"), (1, "bhat")] ∧
    extract_detected_classes OldMaskInput.undecodable [(0, "background"), (1, "bhat")] = [] ∧
    processPredictionResult none [(0, "background"), (1, "bhat")] = PredOutcome.failed :=
  c10_detected_amended [0, 1, 1] [(0, "background"), (1, "bhat")] (by decide) (by decide)

/-! ### Claim C3 -/

theorem le_foldr_max (l : List Nat) : ∀ v ∈ l, v ≤ l.foldr max 0 := by
  induction l with
  | nil => simp
  | cons a t ih =>
    intro v hv
    rw [List.foldr_cons]
    rcases List.mem_cons.mp hv with rfl | hm
    · exact le_max_left _ _
    · exact le_trans (ih v hm) (le_max_right _ _)

theorem mem_npUnique {mask : List Nat} {v : Nat} : v ∈ npUnique mask ↔ v ∈ mask := by
  unfold npUnique
  rw [List.mem_filter]
  constructor
  · rintro ⟨-, hc⟩
    simpa using hc
  · intro hm
    exact ⟨List.mem_range.mpr (Nat.lt_succ_of_le (le_foldr_max mask v hm)), by simpa using hm⟩

theorem npUnique_pairwise (mask : List Nat) : (npUnique mask).Pairwise (· < ·) :=
  (List.pairwise_lt_range _).filter _

theorem npUnique_nodup (mask : List Nat) : (npUnique mask).Nodup :=
  (npUnique_pairwise mask).imp Nat.ne_of_lt

theorem foldl_maskAccum_skip (mask : List Nat) (total : Nat) (cm : List (Nat × String)) :
    ∀ (ids : List Nat), (∀ id ∈ ids, acceptedLabel cm id = none) →
    ∀ acc, ids.foldl (maskAccum mask total cm) acc = acc := by
  intro ids
  induction ids with
  | nil => intro _ acc; rfl
  | cons id rest ih =>
    intro h acc
    rw [List.foldl_cons]
    have hstep : maskAccum mask total cm acc id = acc := by
      simp only [maskAccum, h id (List.mem_cons_self id rest)]
    rw [hstep]
    exact ih (fun x hx => h x (List.mem_cons_of_mem id hx)) acc

theorem npUnique_split_pair {i j : Nat} {mask : List Nat} (hij : i < j)
    (hi : i ∈ mask) (hj : j ∈ mask) :
    ∃ l1 l2 l3, npUnique mask = l1 ++ i :: (l2 ++ j :: l3) ∧
      (∀ x ∈ l1, x ≠ i ∧ x ≠ j) ∧ (∀ x ∈ l2, x ≠ i ∧ x ≠ j) ∧
      (∀ x ∈ l3, x ≠ i ∧ x ≠ j) := by
  have hp := npUnique_pairwise mask
  have hmi : i ∈ npUnique mask := mem_npUnique.mpr hi
  have hmj : j ∈ npUnique mask := mem_npUnique.mpr hj
  obtain ⟨l1, r, hsplit⟩ := List.append_of_mem hmi
  rw [hsplit] at hp hmj
  rw [List.pairwise_append] at hp
  obtain ⟨hp1, hp2, hcross⟩ := hp
  rw [List.pairwise_cons] at hp2
  obtain ⟨hi_lt, hpr⟩ := hp2
  have hjr : j ∈ r := by
    rcases List.mem_append.mp hmj with h1 | h2
    · have := hcross j h1 i (List.mem_cons_self _ _)
      omega
    · rcases List.mem_cons.mp h2 with rfl | hr
      · omega
      · exact hr
  obtain ⟨l2, l3, hsplit2⟩ := List.append_of_mem hjr
  subst hsplit2
  refine ⟨l1, l2, l3, hsplit, ?_, ?_, ?_⟩
  · intro x hx
    have h1 : x < i := hcross x hx i (List.mem_cons_self _ _)
    constructor <;> omega
  · intro x hx
    have h1 : i < x := hi_lt x (List.mem_append_left _ hx)
    rw [List.pairwise_append] at hpr
    have h2 : x < j := hpr.2.2 x hx j (List.mem_cons_self _ _)
    constructor <;> omega
  · intro x hx
    rw [List.pairwise_append] at hpr
    have hpj : (j :: l3).Pairwise (· < ·) := hpr.2.1
    rw [List.pairwise_cons] at hpj
    have h2 : j < x := hpj.1 x hx
    constructor <;> omega

/-- Claim C3 counterexample: mask with 3 pixels of id 1 and 5 pixels of id 2,
both ids labelled "a".  The area calculator keeps a single entry for "a" whose
pixel count is 5 — id 2's count overwrote id 1's — not the merged 3 + 5 = 8
that the claim requires. -/
theorem c3_duplicate_label_counterexample :
    (maskAnalysis [1, 1, 1, 2, 2, 2, 2, 2] [(1, "a"), (2, "a")]).2.1.map
      (fun p => (p.1, p.2.pixels, p.2.class_id)) = [("a", 5, 2)] ∧
    (5 : Nat) ≠ 3 + 5 := ⟨by decide, by decide⟩

/-- Claim C3 amended: when two distinct ids i < j carry the same accepted
label, the area calculator does NOT merge their pixel counts: dict assignment
overwrites, so the single surviving `FoodClassArea` entry for the label holds
the pixel count (and id) of the larger id j, while `total_food_area` still
accumulates both counts and the label appears once in `detected_classes`. -/
theorem c3_duplicate_label_amended (i j : Nat) (s : String) (mask : List Nat)
    (hij : i < j) (hi : i ∈ mask) (hj : j ∈ mask)
    (hacc : acceptedName (trimStr s) = true) :
    maskAnalysis mask [(i, s), (j, s)] =
      ([trimStr s],
       [(trimStr s, ⟨mask.count j,
         round2 ((mask.count j : ℚ) / (mask.length : ℚ) * 100), j⟩)],
       mask.count i + mask.count j) := by
  have hne : i ≠ j := Nat.ne_of_lt hij
  set cm : List (Nat × String) := [(i, s), (j, s)] with hcm
  have hlab : ∀ id, id ≠ i → id ≠ j → acceptedLabel cm id = none := by
    intro id h1 h2
    unfold acceptedLabel
    have hl : cm.lookup id = none := by
      simp [hcm, List.lookup, beq_eq_false_iff_ne.mpr h1, beq_eq_false_iff_ne.mpr h2]
    rw [hl]
  have hli : acceptedLabel cm i = some (trimStr s) := by
    unfold acceptedLabel
    have hl : cm.lookup i = some s := by simp [hcm, List.lookup]
    rw [hl]
    simp [hacc]
  have hlj : acceptedLabel cm j = some (trimStr s) := by
    unfold acceptedLabel
    have hl : cm.lookup j = some s := by
      simp [hcm, List.lookup, beq_eq_false_iff_ne.mpr (Ne.symm hne)]
    rw [hl]
    simp [hacc]
  obtain ⟨l1, l2, l3, hsp, h1, h2, h3⟩ := npUnique_split_pair hij hi hj
  unfold maskAnalysis
  rw [hsp]
  rw [List.foldl_append, List.foldl_cons, List.foldl_append, List.foldl_cons]
  rw [foldl_maskAccum_skip mask mask.length cm l1
    (fun x hx => hlab x (h1 x hx).1 (h1 x hx).2) ([], [], 0)]
  have hstep_i : maskAccum mask mask.length cm ([], [], 0) i =
      ([trimStr s],
       [(trimStr s, ⟨mask.count i,
         round2 ((mask.count i : ℚ) / (mask.length : ℚ) * 100), i⟩)],
       mask.count i) := by
    simp [maskAccum, hli, setEntry]
  rw [hstep_i]
  rw [foldl_maskAccum_skip mask mask.length cm l2
    (fun x hx => hlab x (h2 x hx).1 (h2 x hx).2)]
  have hstep_j : maskAccum mask mask.length cm
      ([trimStr s],
       [(trimStr s, ⟨mask.count i,
         round2 ((mask.count i : ℚ) / (mask.length : ℚ) * 100), i⟩)],
       mask.count i) j =
      ([trimStr s],
       [(trimStr s, ⟨mask.count j,
         round2 ((mask.count j : ℚ) / (mask.length : ℚ) * 100), j⟩)],
       mask.count i + mask.count j) := by
    simp [maskAccum, hlj, setEntry]
  rw [hstep_j]
  exact foldl_maskAccum_skip mask mask.length cm l3
    (fun x hx => hlab x (h3 x hx).1 (h3 x hx).2) _

/-- Concrete instance of the amended C3: ids 1 and 2 both labelled "a" in the
mask [1, 1, 2]. -/
theorem c3_duplicate_label_amended_witness :
    maskAnalysis [1, 1, 2] [(1, "a"), (2, "a")] =
      (["a"],
       [("a", ⟨([1, 1, 2] : List Nat).count 2,
         round2 ((([1, 1, 2] : List Nat).count 2 : ℚ) /
           (([1, 1, 2] : List Nat).length : ℚ) * 100), 2⟩)],
       ([1, 1, 2] : List Nat).count 1 + ([1, 1, 2] : List Nat).count 2) := by
  have h := c3_duplicate_label_amended 1 2 "a" [1, 1, 2] (by decide) (by decide)
    (by decide) (by decide)
  have ht : trimStr "a" = "a" := by decide
  rw [ht] at h
  exact h

/-! ### Claim C8 -/

/-- Sum of `pixel_count` over the `class_areas` entries (observer). -/
def sumPix (l : List (String × AreaEntry)) : Nat := (l.map (fun p => p.2.pixels)).sum

/-- The labels keying the `class_areas` entries (observer). -/
def keysOf (l : List (String × AreaEntry)) : List String := l.map (fun p => p.1)

/-- The pixel contribution of a class id to the accepted total: its count if
its label is accepted, 0 otherwise (observer). -/
def accWeight (mask : List Nat) (cm : List (Nat × String)) (id : Nat) : Nat :=
  match acceptedLabel cm id with
  | some _ => mask.count id
  | none => 0

/-- Every pixel's id resolves to a non-reserved label (observer). -/
def allAccepted (mask : List Nat) (cm : List (Nat × String)) : Prop :=
  ∀ px ∈ mask, acceptedLabel cm px ≠ none

/-- Distinct ids present in the mask carry distinct accepted labels
(observer). -/
def labelsInjOn (mask : List Nat) (cm : List (Nat × String)) : Prop :=
  ∀ i ∈ mask, ∀ j ∈ mask, ∀ s : String,
    acceptedLabel cm i = some s → acceptedLabel cm j = some s → i = j

/-- Along a run of the area loop, each accepted label is fresh: distinct from
the labels of earlier accepted ids and from the keys already present. -/
def freshLabels (cm : List (Nat × String)) : List Nat → List String → Prop
  | [], _ => True
  | id :: rest, used =>
    match acceptedLabel cm id with
    | none => freshLabels cm rest used
    | some k => k ∉ used ∧ freshLabels cm rest (used ++ [k])

theorem any_eq_keys (l : List (String × AreaEntry)) (k : String) :
    (l.any (fun p => p.1 == k)) = true ↔ k ∈ keysOf l := by
  simp only [List.any_eq_true, keysOf, List.mem_map, beq_iff_eq]

theorem setEntry_not_mem (l : List (String × AreaEntry)) (k : String) (v : AreaEntry)
    (h : k ∉ keysOf l) : setEntry l k v = l ++ [(k, v)] := by
  unfold setEntry
  rw [if_neg (fun ha => h ((any_eq_keys l k).mp ha))]

theorem map_replace_id (k : String) (v : AreaEntry) :
    ∀ (l : List (String × AreaEntry)), (∀ q ∈ l, q.1 ≠ k) →
    l.map (fun q => if q.1 == k then (k, v) else q) = l := by
  intro l h
  induction l with
  | nil => rfl
  | cons q rest ih =>
    rw [List.map_cons]
    have hb : (q.1 == k) = false := beq_eq_false_iff_ne.mpr (h q (List.mem_cons_self q rest))
    simp only [hb, Bool.false_eq_true, if_false]
    rw [ih (fun x hx => h x (List.mem_cons_of_mem q hx))]

theorem setEntry_values (l : List (String × AreaEntry)) (k : String) (v : AreaEntry) :
    ∀ p ∈ setEntry l k v, p = (k, v) ∨ p ∈ l := by
  unfold setEntry
  split_ifs with h
  · intro p hp
    rcases List.mem_map.mp hp with ⟨q, hq, he⟩
    by_cases hqk : q.1 = k
    · left
      rw [← he]
      simp [hqk]
    · right
      rw [← he]
      simp only [beq_eq_false_iff_ne.mpr hqk, Bool.false_eq_true, if_false]
      exact hq
  · intro p hp
    rcases List.mem_append.mp hp with h1 | h2
    · right; exact h1
    · left; simpa using h2

theorem setEntry_mem_sum (k : String) (v : AreaEntry) :
    ∀ (l : List (String × AreaEntry)), (keysOf l).Nodup → k ∈ keysOf l →
    keysOf (setEntry l k v) = keysOf l ∧
    ∃ old, old ∈ l.map (fun p => p.2.pixels) ∧
      sumPix (setEntry l k v) + old = sumPix l + v.pixels := by
  intro l
  induction l with
  | nil => intro _ hk; simp [keysOf] at hk
  | cons p rest ih =>
    intro hnd hk
    have hmem : (p :: rest).any (fun q => q.1 == k) = true :=
      (any_eq_keys _ k).mpr hk
    have hsetc : setEntry (p :: rest) k v =
        (p :: rest).map (fun q => if q.1 == k then (k, v) else q) := by
      unfold setEntry
      rw [if_pos hmem]
    have hnd_rest : (keysOf rest).Nodup := by
      rw [keysOf, List.map_cons, List.nodup_cons] at hnd
      exact hnd.2
    have hp_not : p.1 ∉ keysOf rest := by
      rw [keysOf, List.map_cons, List.nodup_cons] at hnd
      exact hnd.1
    by_cases hpk : p.1 = k
    · -- the head entry is replaced; the tail is key-disjoint from k
      have hrest_no : ∀ q ∈ rest, q.1 ≠ k := by
        intro q hq hqe
        exact hp_not (by rw [hpk, ← hqe] at *; exact List.mem_map.mpr ⟨q, hq, hqe ▸ rfl⟩)
      have hmap : rest.map (fun q => if q.1 == k then (k, v) else q) = rest :=
        map_replace_id k v rest hrest_no
      rw [hsetc, List.map_cons, beq_iff_eq.mpr hpk]
      simp only [if_true]
      refine ⟨?_, p.2.pixels, ?_, ?_⟩
      · rw [hmap]
        simp [keysOf, hpk]
      · simp
      · rw [hmap]
        simp [sumPix]
        omega
    · -- the head entry survives; recurse into the tail
      have hk_rest : k ∈ keysOf rest := by
        rcases List.mem_map.mp hk with ⟨q, hq, he⟩
        rcases List.mem_cons.mp hq with rfl | hq2
        · exact absurd he hpk
        · exact List.mem_map.mpr ⟨q, hq2, he⟩
      obtain ⟨hkeys, old, hold_mem, hsum⟩ := ih hnd_rest hk_rest
      have hsetr : setEntry rest k v =
          rest.map (fun q => if q.1 == k then (k, v) else q) := by
        unfold setEntry
        rw [if_pos ((any_eq_keys _ k).mpr hk_rest)]
      rw [hsetc, List.map_cons, beq_eq_false_iff_ne.mpr hpk]
      simp only [Bool.false_eq_true, if_false]
      refine ⟨?_, old, ?_, ?_⟩
      · rw [← hsetr] at *
        simp only [keysOf, List.map_cons]
        rw [show (setEntry rest k v).map (fun q => q.1) = keysOf (setEntry rest k v) from rfl,
          hkeys, keysOf]
      · simp only [List.map_cons, List.mem_cons]
        right; exact hold_mem
      · rw [← hsetr] at *
        simp only [sumPix, List.map_cons, List.sum_cons] at hsum ⊢
        omega

theorem maskFold_sum (mask : List Nat) (cm : List (Nat × String)) (total : Nat) :
    ∀ (ids : List Nat), (∀ x ∈ ids, 1 ≤ mask.count x) →
    ∀ (det : List String) (areas : List (String × AreaEntry)) (tot : Nat),
    (keysOf areas).Nodup → (∀ p ∈ areas, 1 ≤ p.2.pixels) →
    (keysOf (ids.foldl (maskAccum mask total cm) (det, areas, tot)).2.1).Nodup ∧
    (∀ p ∈ (ids.foldl (maskAccum mask total cm) (det, areas, tot)).2.1, 1 ≤ p.2.pixels) ∧
    sumPix (ids.foldl (maskAccum mask total cm) (det, areas, tot)).2.1 ≤
      sumPix areas + (ids.map (accWeight mask cm)).sum ∧
    (sumPix (ids.foldl (maskAccum mask total cm) (det, areas, tot)).2.1 =
        sumPix areas + (ids.map (accWeight mask cm)).sum ↔
      freshLabels cm ids (keysOf areas)) := by
  intro ids
  induction ids with
  | nil =>
    intro _ det areas tot hnd hval
    refine ⟨hnd, hval, by simp, by simp [freshLabels]⟩
  | cons id rest ih =>
    intro hcnt det areas tot hnd hval
    have hcnt_rest : ∀ x ∈ rest, 1 ≤ mask.count x :=
      fun x hx => hcnt x (List.mem_cons_of_mem id hx)
    have hpx : 1 ≤ mask.count id := hcnt id (List.mem_cons_self id rest)
    rw [List.foldl_cons, List.map_cons, List.sum_cons]
    cases ha : acceptedLabel cm id with
    | none =>
      have hstep : maskAccum mask total cm (det, areas, tot) id = (det, areas, tot) := by
        simp only [maskAccum, ha]
      have hw : accWeight mask cm id = 0 := by simp [accWeight, ha]
      rw [hstep, hw]
      obtain ⟨a1, a2, a3, a4⟩ := ih hcnt_rest det areas tot hnd hval
      refine ⟨a1, a2, by simpa using a3, ?_⟩
      simp only [freshLabels, ha, zero_add]
      exact a4
    | some k =>
      have hstep : maskAccum mask total cm (det, areas, tot) id =
          (if k ∈ det then det else det ++ [k],
           setEntry areas k ⟨mask.count id,
             round2 ((mask.count id : ℚ) / (total : ℚ) * 100), id⟩,
           tot + mask.count id) := by
        simp only [maskAccum, ha]
      have hw : accWeight mask cm id = mask.count id := by simp [accWeight, ha]
      rw [hstep, hw]
      set e : AreaEntry := ⟨mask.count id,
        round2 ((mask.count id : ℚ) / (total : ℚ) * 100), id⟩ with he
      have hep : e.pixels = mask.count id := rfl
      by_cases hk : k ∈ keysOf areas
      · obtain ⟨hkeys, old, hold_mem, hsum⟩ := setEntry_mem_sum k e areas hnd hk
        have hold1 : 1 ≤ old := by
          rcases List.mem_map.mp hold_mem with ⟨q, hq, hqe⟩
          rw [← hqe]
          exact hval q hq
        have hval' : ∀ p ∈ setEntry areas k e, 1 ≤ p.2.pixels := by
          intro p hp
          rcases setEntry_values areas k e p hp with rfl | hmem
          · simpa [he] using hpx
          · exact hval p hmem
        have hnd' : (keysOf (setEntry areas k e)).Nodup := by
          rw [hkeys]; exact hnd
        obtain ⟨a1, a2, a3, a4⟩ := ih hcnt_rest
          (if k ∈ det then det else det ++ [k]) (setEntry areas k e)
          (tot + mask.count id) hnd' hval'
        refine ⟨a1, a2, by omega, ?_⟩
        simp only [freshLabels, ha]
        constructor
        · intro heq
          exfalso
          omega
        · rintro ⟨hcontra, -⟩
          exact absurd hk hcontra
      · have hset : setEntry areas k e = areas ++ [(k, e)] := setEntry_not_mem areas k e hk
        have hkeys' : keysOf (setEntry areas k e) = keysOf areas ++ [k] := by
          rw [hset]; simp [keysOf]
        have hnd' : (keysOf (setEntry areas k e)).Nodup := by
          rw [hkeys', List.nodup_append]
          refine ⟨hnd, List.nodup_singleton k, ?_⟩
          intro a haa hab
          rw [List.mem_singleton] at hab
          exact hk (hab ▸ haa)
        have hval' : ∀ p ∈ setEntry areas k e, 1 ≤ p.2.pixels := by
          intro p hp
          rcases setEntry_values areas k e p hp with rfl | hmem
          · simpa [he] using hpx
          · exact hval p hmem
        have hsum' : sumPix (setEntry areas k e) = sumPix areas + mask.count id := by
          rw [hset]
          simp [sumPix, he]
        obtain ⟨a1, a2, a3, a4⟩ := ih hcnt_rest
          (if k ∈ det then det else det ++ [k]) (setEntry areas k e)
          (tot + mask.count id) hnd' hval'
        rw [hkeys'] at a4
        refine ⟨a1, a2, by omega, ?_⟩
        simp only [freshLabels, ha]
        constructor
        · intro heq
          exact ⟨hk, a4.mp (by omega)⟩
        · rintro ⟨-, hfr⟩
          have := a4.mpr hfr
          omega

theorem sum_map_le_iff {α : Type} (f g : α → Nat) :
    ∀ l : List α, (∀ x ∈ l, f x ≤ g x) →
    ((l.map f).sum ≤ (l.map g).sum ∧
     ((l.map f).sum = (l.map g).sum ↔ ∀ x ∈ l, f x = g x)) := by
  intro l
  induction l with
  | nil => intro _; simp
  | cons a t ih =>
    intro h
    have ha := h a (List.mem_cons_self a t)
    obtain ⟨ihle, ihiff⟩ := ih (fun x hx => h x (List.mem_cons_of_mem a hx))
    rw [List.map_cons, List.map_cons, List.sum_cons, List.sum_cons]
    refine ⟨by omega, ?_, ?_⟩
    · intro heq x hx
      rcases List.mem_cons.mp hx with rfl | hx2
      · omega
      · have h2 : (t.map f).sum = (t.map g).sum := by omega
        exact ihiff.mp h2 x hx2
    · intro hall
      have h1 : f a = g a := hall a (List.mem_cons_self a t)
      have h2 : (t.map f).sum = (t.map g).sum :=
        ihiff.mpr (fun x hx => hall x (List.mem_cons_of_mem a hx))
      omega

theorem npUnique_count_sum (mask : List Nat) :
    ((npUnique mask).map (fun v => mask.count v)).sum = mask.length := by
  have h1 : (npUnique mask).toFinset = mask.toFinset := by
    ext v
    simp [List.mem_toFinset, mem_npUnique]
  calc ((npUnique mask).map (fun v => mask.count v)).sum
      = (npUnique mask).toFinset.sum (fun v => mask.count v) :=
        (List.sum_toFinset _ (npUnique_nodup mask)).symm
    _ = mask.toFinset.sum (fun v => mask.count v) := by rw [h1]
    _ = mask.length := List.sum_toFinset_count_eq_length mask

theorem freshLabels_iff (cm : List (Nat × String)) :
    ∀ (ids : List Nat), ids.Nodup → ∀ (used : List String),
    (freshLabels cm ids used ↔
      ((∀ i ∈ ids, ∀ j ∈ ids, ∀ s : String, acceptedLabel cm i = some s →
          acceptedLabel cm j = some s → i = j) ∧
       (∀ i ∈ ids, ∀ s : String, acceptedLabel cm i = some s → s ∉ used))) := by
  intro ids
  induction ids with
  | nil => intro _ used; simp [freshLabels]
  | cons id rest ih =>
    intro hnd used
    obtain ⟨hid_not, hnd_rest⟩ := List.nodup_cons.mp hnd
    cases ha : acceptedLabel cm id with
    | none =>
      simp only [freshLabels, ha]
      rw [ih hnd_rest used]
      constructor
      · rintro ⟨hinj, hused⟩
        refine ⟨?_, ?_⟩
        · intro i hi j hj s hsi hsj
          rcases List.mem_cons.mp hi with rfl | hi2
          · rw [ha] at hsi; exact absurd hsi (by simp)
          · rcases List.mem_cons.mp hj with rfl | hj2
            · rw [ha] at hsj; exact absurd hsj (by simp)
            · exact hinj i hi2 j hj2 s hsi hsj
        · intro i hi s hsi
          rcases List.mem_cons.mp hi with rfl | hi2
          · rw [ha] at hsi; exact absurd hsi (by simp)
          · exact hused i hi2 s hsi
      · rintro ⟨hinj, hused⟩
        exact ⟨fun i hi j hj s hsi hsj =>
            hinj i (List.mem_cons_of_mem _ hi) j (List.mem_cons_of_mem _ hj) s hsi hsj,
          fun i hi s hsi => hused i (List.mem_cons_of_mem _ hi) s hsi⟩
    | some k =>
      simp only [freshLabels, ha]
      rw [ih hnd_rest (used ++ [k])]
      constructor
      · rintro ⟨hknot, hinj, hused⟩
        refine ⟨?_, ?_⟩
        · intro i hi j hj s hsi hsj
          rcases List.mem_cons.mp hi with rfl | hi2
          · rcases List.mem_cons.mp hj with rfl | hj2
            · rfl
            · exfalso
              rw [ha] at hsi
              injection hsi with hs
              refine hused j hj2 s hsj ?_
              rw [← hs]
              exact List.mem_append_right used (List.mem_singleton_self k)
          · rcases List.mem_cons.mp hj with rfl | hj2
            · exfalso
              rw [ha] at hsj
              injection hsj with hs
              refine hused i hi2 s hsi ?_
              rw [← hs]
              exact List.mem_append_right used (List.mem_singleton_self k)
            · exact hinj i hi2 j hj2 s hsi hsj
        · intro i hi s hsi
          rcases List.mem_cons.mp hi with rfl | hi2
          · rw [ha] at hsi
            injection hsi with hs
            subst hs
            exact hknot
          · intro hsu
            exact hused i hi2 s hsi (List.mem_append_left _ hsu)
      · rintro ⟨hinj, hused⟩
        refine ⟨hused id (List.mem_cons_self _ _) k ha, ?_, ?_⟩
        · intro i hi j hj s hsi hsj
          exact hinj i (List.mem_cons_of_mem _ hi) j (List.mem_cons_of_mem _ hj) s hsi hsj
        · intro i hi s hsi hsu
          rcases List.mem_append.mp hsu with hu | hk1
          · exact hused i (List.mem_cons_of_mem _ hi) s hsi hu
          · rw [List.mem_singleton] at hk1
            subst hk1
            have hieq : i = id :=
              hinj i (List.mem_cons_of_mem _ hi) id (List.mem_cons_self _ _) s hsi ha
            exact hid_not (hieq ▸ hi)

/-- Claim C8 counterexample: mask [1, 2] with both ids labelled "a".  Every
pixel belongs to a non-reserved class, yet the summed pixel_count of the
`FoodClassArea` entries is 1 (the duplicate label overwrote an entry), not
the total 2, so the claimed equivalence fails. -/
theorem c8_area_sum_counterexample :
    sumPix (maskAnalysis [1, 2] [(1, "a"), (2, "a")]).2.1 = 1 ∧
    (∀ px ∈ ([1, 2] : List Nat), acceptedLabel [(1, "a"), (2, "a")] px ≠ none) ∧
    ¬ (sumPix (maskAnalysis [1, 2] [(1, "a"), (2, "a")]).2.1 =
        ([1, 2] : List Nat).length ↔
       ∀ px ∈ ([1, 2] : List Nat), acceptedLabel [(1, "a"), (2, "a")] px ≠ none) := by
  refine ⟨by decide, by decide, ?_⟩
  intro h
  have h1 : sumPix (maskAnalysis [1, 2] [(1, "a"), (2, "a")]).2.1 = 1 := by decide
  have h2 : ∀ px ∈ ([1, 2] : List Nat), acceptedLabel [(1, "a"), (2, "a")] px ≠ none := by
    decide
  have := h.mpr h2
  rw [h1] at this
  simp at this

/-- Claim C8 amended: for every mask and class map the summed pixel_count over
the `class_areas` entries is at most `total_pixels`; equality holds iff every
pixel's id resolves to a non-reserved label AND distinct ids present in the
mask carry distinct labels (when two ids share a label the dict assignment
overwrites one entry and the sum falls short — see the counterexample). -/
theorem c8_area_sum_amended (mask : List Nat) (cm : List (Nat × String)) :
    sumPix (maskAnalysis mask cm).2.1 ≤ mask.length ∧
    (sumPix (maskAnalysis mask cm).2.1 = mask.length ↔
      allAccepted mask cm ∧ labelsInjOn mask cm) := by
  have hcnt : ∀ x ∈ npUnique mask, 1 ≤ mask.count x := fun x hx =>
    List.count_pos_iff.mpr (mem_npUnique.mp hx)
  obtain ⟨-, -, hle, hiff⟩ := maskFold_sum mask cm mask.length (npUnique mask) hcnt [] [] 0
    (by simp [keysOf]) (by simp)
  have hzero : sumPix ([] : List (String × AreaEntry)) = 0 := rfl
  have hpoint : ∀ x ∈ npUnique mask, accWeight mask cm x ≤ mask.count x := by
    intro x hx
    unfold accWeight
    cases acceptedLabel cm x <;> simp
  obtain ⟨hSle, hSiff⟩ := sum_map_le_iff (accWeight mask cm)
    (fun v => mask.count v) (npUnique mask) hpoint
  have hlen := npUnique_count_sum mask
  have hbridge := freshLabels_iff cm (npUnique mask) (npUnique_nodup mask)
    (keysOf ([] : List (String × AreaEntry)))
  unfold maskAnalysis
  refine ⟨by omega, ?_, ?_⟩
  · intro heq
    have hS_eq : ((npUnique mask).map (accWeight mask cm)).sum =
        ((npUnique mask).map (fun v => mask.count v)).sum := by omega
    have hsum_eq : sumPix ((npUnique mask).foldl (maskAccum mask mask.length cm)
        ([], [], 0)).2.1 = sumPix ([] : List (String × AreaEntry)) +
        ((npUnique mask).map (accWeight mask cm)).sum := by omega
    have hfresh := hiff.mp hsum_eq
    constructor
    · intro px hpx hnone
      have hx : px ∈ npUnique mask := mem_npUnique.mpr hpx
      have hw := hSiff.mp hS_eq px hx
      have hw0 : accWeight mask cm px = 0 := by simp [accWeight, hnone]
      rw [hw0] at hw
      have := hcnt px hx
      omega
    · intro i hi j hj s hsi hsj
      exact (hbridge.mp hfresh).1 i (mem_npUnique.mpr hi) j (mem_npUnique.mpr hj) s hsi hsj
  · rintro ⟨hall, hinj⟩
    have hS_eq : ((npUnique mask).map (accWeight mask cm)).sum =
        ((npUnique mask).map (fun v => mask.count v)).sum := by
      apply hSiff.mpr
      intro x hx
      unfold accWeight
      cases hax : acceptedLabel cm x with
      | none => exact absurd hax (hall x (mem_npUnique.mp hx))
      | some _ => rfl
    have hfresh : freshLabels cm (npUnique mask) (keysOf ([] : List (String × AreaEntry))) := by
      apply hbridge.mpr
      refine ⟨?_, ?_⟩
      · intro i hi j hj s hsi hsj
        exact hinj i (mem_npUnique.mp hi) j (mem_npUnique.mp hj) s hsi hsj
      · intro i hi s hsi hsu
        simp [keysOf] at hsu
    have := hiff.mpr hfresh
    omega
